import Mathlib

/-!
Shallow embedding of the genealogical graph model and its traversal and
aggregation operations from `genaialogy/tools/gedcom.py` (`format_name` and
class `FamilyTree`), together with theorems settling the specification
claims about them.

The external parser library is modelled by its contract: a `FamilyTree`
carries the parsed top-level records (individuals, unions/families, notes)
in file order, and the parser queries (`get_families`, `get_family_members`)
resolve the pointer cross-references, skipping dangling pointers.
Python exceptions are modelled with `Except`; `None` results with `Option`.
Python string `strip` is modelled by the executable `stripString`.
The unbounded recursion of `find_path_recursive` is modelled with an
explicit fuel parameter; `SearchResult.outOfFuel` marks fuel exhaustion,
and the termination theorem for claim C2 shows that with the fuel used by
`find_path` this outcome is unreachable, so the fuelled function coincides
with the source's recursion.
-/

/-- A GEDCOM name value: either a tuple of name parts or a pre-joined string. -/
inductive GedName where
  | parts (l : List String)
  | plain (s : String)
deriving DecidableEq

/-- Source `format_name`: join a tuple name with single spaces, leave a
pre-joined string untouched. -/
def format_name : GedName → String
  | GedName.parts l => String.intercalate " " l
  | GedName.plain s => s

/-- An individual record as exposed by the parser contract: stable pointer,
name, vital data, occupation, union memberships (`FAMS` spouse links and
`FAMC` child links, as family pointers in record order) and note references. -/
structure Individual where
  pointer : String
  name : GedName
  gender : String
  birth_date : String
  birth_place : String
  deceased : Bool
  death_date : String
  death_place : String
  occupation : String
  fams : List String
  famc : List String
  note_refs : List String
deriving DecidableEq

/-- A family (union) event sub-record: a `MARR` or `DIV` element with its
child `(tag, value)` pairs. -/
inductive FamEvent where
  | marr (sub : List (String × String))
  | div (sub : List (String × String))
deriving DecidableEq

/-- A family (union) record: pointer plus member pointers by role and event
sub-records. -/
structure Family where
  pointer : String
  husb : List String
  wife : List String
  chil : List String
  events : List FamEvent
deriving DecidableEq

/-- A top-level `NOTE` record: its pointer and the values of its child
elements (the text lines). -/
structure GNote where
  pointer : String
  lines : List String
deriving DecidableEq

/-- The parsed record stream backing a `FamilyTree`: top-level individuals,
families and notes, each list in file order. -/
structure FamilyTree where
  individuals : List Individual
  families : List Family
  notes : List GNote
deriving DecidableEq

/-- Python `str.strip()`: drop whitespace from both ends. -/
def stripString (s : String) : String :=
  String.mk (((s.toList.dropWhile Char.isWhitespace).reverse.dropWhile
    Char.isWhitespace).reverse)

/-- Role selector for `Parser.get_families`: `FAMS` or `FAMC` links. -/
inductive FamLink where
  | fams
  | famc
deriving DecidableEq

/-- Role selector for `Parser.get_family_members`: `HUSB`, `WIFE` or `CHIL`. -/
inductive FamRole where
  | husb
  | wife
  | chil
deriving DecidableEq

namespace FamilyTree

/-- Resolve an individual pointer: first individual record with that pointer. -/
def findIndividualByPointer (t : FamilyTree) (p : String) : Option Individual :=
  t.individuals.find? (fun i => i.pointer == p)

/-- Resolve a family pointer: first family record with that pointer. -/
def findFamilyByPointer (t : FamilyTree) (p : String) : Option Family :=
  t.families.find? (fun f => f.pointer == p)

/-- Parser contract `get_families(individual, tag)`: the families referenced
by the individual's `FAMS` (resp. `FAMC`) links, in link order, dangling
references skipped. -/
def get_families (t : FamilyTree) (individual : Individual) : FamLink → List Family
  | FamLink.fams => individual.fams.filterMap t.findFamilyByPointer
  | FamLink.famc => individual.famc.filterMap t.findFamilyByPointer

/-- Parser contract `get_family_members(family, tag)`: the individuals
referenced by the family's members of the given role, in record order,
dangling references skipped. -/
def get_family_members (t : FamilyTree) (family : Family) : FamRole → List Individual
  | FamRole.husb => family.husb.filterMap t.findIndividualByPointer
  | FamRole.wife => family.wife.filterMap t.findIndividualByPointer
  | FamRole.chil => family.chil.filterMap t.findIndividualByPointer

/-- Source `cache_notes` / the `root_notes` dictionary: a top-level `NOTE`
element is indexed when its pointer is non-empty; a later record with the
same pointer overwrites an earlier one (dictionary assignment). -/
def root_notes (t : FamilyTree) (ref : String) : Option GNote :=
  (t.notes.filter (fun n => (n.pointer != "") && (n.pointer == ref))).getLast?

/-- Source `find_individual_by_name`: scan the top-level records in file
order and return the first individual whose formatted name equals the query. -/
def find_individual_by_name (t : FamilyTree) (name : String) : Option Individual :=
  t.individuals.find? (fun element => format_name element.name == name)

/-- The children list computed by `find_children` after the name lookup has
resolved `individual1`: child names across all `FAMS` families. -/
def children_of_resolved (t : FamilyTree) (individual1 : Individual) : List String :=
  (t.get_families individual1 FamLink.fams).flatMap (fun family =>
    (t.get_family_members family FamRole.chil).map (fun child => format_name child.name))

/-- Source `find_children`: re-resolve the argument by its formatted name,
fail if the lookup finds nobody, else list the child names of all `FAMS`
families of the resolved individual. -/
def find_children (t : FamilyTree) (individual : Individual) :
    Except String (List String) :=
  match t.find_individual_by_name (format_name individual.name) with
  | none => Except.error "Person not found in GEDCOM file"
  | some individual1 => Except.ok (t.children_of_resolved individual1)

/-- The father/mother result of `find_parents`. -/
structure Parents where
  father : Option String
  mother : Option String
deriving DecidableEq

/-- The parents computed by `find_parents` after the name lookup has
resolved `individual1`: `none` when there is no `FAMC` family, otherwise the
first `HUSB` and first `WIFE` member names of the FIRST `FAMC` family only. -/
def parents_of_resolved (t : FamilyTree) (individual1 : Individual) : Option Parents :=
  match t.get_families individual1 FamLink.famc with
  | [] => none
  | family :: _ =>
    some
      { father := (t.get_family_members family FamRole.husb).head?.map
          (fun h => format_name h.name)
        mother := (t.get_family_members family FamRole.wife).head?.map
          (fun w => format_name w.name) }

/-- Source `find_parents`: re-resolve the argument by its formatted name,
fail if the lookup finds nobody, else derive the parents from the first
`FAMC` family of the resolved individual. -/
def find_parents (t : FamilyTree) (individual : Individual) :
    Except String (Option Parents) :=
  match t.find_individual_by_name (format_name individual.name) with
  | none => Except.error "Person not found in GEDCOM file"
  | some individual1 => Except.ok (t.parents_of_resolved individual1)

/-- The siblings computed by `find_siblings` after the name lookup has
resolved `individual1`: `none` when there is no `FAMC` family, otherwise the
child names aggregated across ALL `FAMC` families. -/
def siblings_of_resolved (t : FamilyTree) (individual1 : Individual) :
    Option (List String) :=
  match t.get_families individual1 FamLink.famc with
  | [] => none
  | family :: rest =>
    some ((family :: rest).flatMap (fun fam =>
      (t.get_family_members fam FamRole.chil).map (fun member => format_name member.name)))

/-- Source `find_siblings`: re-resolve the argument by its formatted name,
fail if the lookup finds nobody, else aggregate child names across all
`FAMC` families of the resolved individual. -/
def find_siblings (t : FamilyTree) (individual : Individual) :
    Except String (Option (List String)) :=
  match t.find_individual_by_name (format_name individual.name) with
  | none => Except.error "Person not found in GEDCOM file"
  | some individual1 => Except.ok (t.siblings_of_resolved individual1)

/-- One entry of the `find_spouses` result. -/
structure MarriageInfo where
  spouse : String
  marriage_date : Option String
  marriage_place : Option String
  divorce_date : Option String
deriving DecidableEq

/-- The scan of a family's event sub-records performed inside `find_spouses`:
fold the `MARR` and `DIV` elements, the later `DATE`/`PLAC` values
overwriting earlier ones; returns (marriage date, marriage place, divorce date). -/
def familyMarriageData (family : Family) :
    Option String × Option String × Option String :=
  family.events.foldl
    (fun acc ev =>
      match ev with
      | FamEvent.marr sub =>
        sub.foldl (fun acc2 kv =>
          if kv.1 == "DATE" then (some kv.2, acc2.2.1, acc2.2.2)
          else if kv.1 == "PLAC" then (acc2.1, some kv.2, acc2.2.2)
          else acc2) acc
      | FamEvent.div sub =>
        sub.foldl (fun acc2 kv =>
          if kv.1 == "DATE" then (acc2.1, acc2.2.1, some kv.2) else acc2) acc)
    (none, none, none)

/-- Source `find_spouses`: for each `FAMS` family of the individual (no name
re-resolution here), decide whether the individual is a husband by pointer
comparison, take the members of the opposite role as spouses, and attach the
family's marriage/divorce data. -/
def find_spouses (t : FamilyTree) (individual : Individual) : List MarriageInfo :=
  (t.get_families individual FamLink.fams).flatMap (fun family =>
    let is_husband := (t.get_family_members family FamRole.husb).any
      (fun husband => husband.pointer == individual.pointer)
    let spouse_role := if is_husband then FamRole.wife else FamRole.husb
    let data := familyMarriageData family
    (t.get_family_members family spouse_role).map (fun spouse =>
      { spouse := format_name spouse.name
        marriage_date := data.1
        marriage_place := data.2.1
        divorce_date := data.2.2 }))

/-- The note lines one `NOTE` reference contributes inside `find_notes`:
the stripped child-element lines of the referenced top-level note when the
reference resolves in `root_notes`, nothing when it does not. -/
def noteLinesOfRef (t : FamilyTree) (note_ref : String) : List String :=
  match t.root_notes note_ref with
  | some note_element => note_element.lines.map stripString
  | none => []

/-- The lines gathered across all of an individual's note references. -/
def resolvedNoteLines (t : FamilyTree) (individual : Individual) : List String :=
  individual.note_refs.flatMap t.noteLinesOfRef

/-- Source `find_notes`: join the resolved note lines with single spaces,
returning `none` when no line was gathered. -/
def find_notes (t : FamilyTree) (individual : Individual) : Option String :=
  let note_lines := t.resolvedNoteLines individual
  if note_lines.isEmpty then none else some (String.intercalate " " note_lines)

/-- Source `dump_individual_info`: an ordered mapping (association list) of
human-readable fields. `name`, `gender`, `birth date`, `birth place` are
always emitted, `death date`/`death place` only when deceased, `occupation`
always; then `children`, `father`/`mother`, `notes`, `siblings`, `spouses`
only when the corresponding derivation is truthy in the Python sense: a
non-empty list, a non-`None` parents record, and for notes a string that is
neither `None` nor empty (`if notes:` is string truthiness, so a notes
value that joins to the empty string is also omitted). Errors of the
relationship derivations propagate. -/
def dump_individual_info (t : FamilyTree) (individual : Individual) :
    Except String (List (String × Option String)) :=
  match t.find_children individual with
  | Except.error e => Except.error e
  | Except.ok children =>
    match t.find_parents individual with
    | Except.error e => Except.error e
    | Except.ok parents =>
      match t.find_siblings individual with
      | Except.error e => Except.error e
      | Except.ok siblings =>
        let spouses := t.find_spouses individual
        Except.ok
          ([("name", some (format_name individual.name)),
            ("gender", some individual.gender),
            ("birth date", some individual.birth_date),
            ("birth place", some individual.birth_place)] ++
           (if individual.deceased then
              [("death date", some individual.death_date),
               ("death place", some individual.death_place)]
            else []) ++
           [("occupation", some individual.occupation)] ++
           (if children.isEmpty then []
            else [("children", some (String.intercalate ", " children))]) ++
           (match parents with
            | none => []
            | some p => [("father", p.father), ("mother", p.mother)]) ++
           (match t.find_notes individual with
            | none => []
            | some s => if s = "" then [] else [("notes", some s)]) ++
           (match siblings with
            | none => []
            | some l =>
              if l.isEmpty then []
              else [("siblings", some (String.intercalate ", " l))]) ++
           (if spouses.isEmpty then []
            else [("spouses",
              some (String.intercalate ", " (spouses.map MarriageInfo.spouse)))]))

/-- Outcome of one `find_path_recursive` search branch. `outOfFuel` is the
fuel-exhaustion marker of the embedding; the source has no such outcome and
the termination theorem shows it is unreachable at the fuel `find_path` uses. -/
inductive SearchResult where
  | found (path : List Individual)
  | notFound
  | outOfFuel
deriving DecidableEq

/-- The child loop of `find_path_recursive`: try each child in order with
the threaded visited set, short-circuiting on the first found path (and on
fuel exhaustion). -/
def searchChildren (step : Individual → List Individual → List String →
    SearchResult × List String) :
    List Individual → List Individual → List String → SearchResult × List String
  | [], _, visited => (SearchResult.notFound, visited)
  | child :: rest, path, visited =>
    match step child path visited with
    | (SearchResult.found p, v) => (SearchResult.found p, v)
    | (SearchResult.outOfFuel, v) => (SearchResult.outOfFuel, v)
    | (SearchResult.notFound, v) => searchChildren step rest path v

/-- Source `find_path_recursive`: depth-first descent search. A branch whose
current individual's pointer is already in the shared visited set fails at
once; otherwise the pointer is marked visited, the individual is appended to
this branch's copy of the path, success is declared on pointer equality with
the target, and otherwise every child of every `FAMS` family is tried in
file order with the threaded visited set. -/
def find_path_recursive (t : FamilyTree) (target : Individual) :
    Nat → Individual → List Individual → List String → SearchResult × List String
  | 0, _, _, visited => (SearchResult.outOfFuel, visited)
  | Nat.succ fuel, current, path, visited =>
    if current.pointer ∈ visited then (SearchResult.notFound, visited)
    else
      let visited1 := current.pointer :: visited
      let path1 := path ++ [current]
      if current.pointer = target.pointer then (SearchResult.found path1, visited1)
      else
        let children := (t.get_families current FamLink.fams).flatMap
          (fun family => t.get_family_members family FamRole.chil)
        searchChildren
          (fun child p v => find_path_recursive t target fuel child p v)
          children path1 visited1

/-- The two errors `find_path` can raise. -/
inductive PathError where
  | individualsNotFound
  | noPathFound
deriving DecidableEq

/-- Source `find_path`: resolve both names (raising the not-found error when
either fails), run the recursive search from the ancestor, and return the
formatted display names of the found path, raising the no-path error when
the search exhausts. The fuel is one more than the number of individual
records, which the termination theorem shows is always enough. -/
def find_path (t : FamilyTree) (ancestor_name descendant_name : String) :
    Except PathError (List String) :=
  match t.find_individual_by_name ancestor_name,
        t.find_individual_by_name descendant_name with
  | some ancestor, some descendant =>
    match (find_path_recursive t descendant (t.individuals.length + 1)
        ancestor [] []).1 with
    | SearchResult.found path =>
      Except.ok (path.map (fun person => format_name person.name))
    | _ => Except.error PathError.noPathFound
  | _, _ => Except.error PathError.individualsNotFound

end FamilyTree

/-! ## Auxiliary definitions used by the theorems -/

/-- The pointers of all individual records, in file order. -/
def allPointers (t : FamilyTree) : List String := t.individuals.map Individual.pointer

/-- Number of individual-record pointers not yet in the visited set; the
termination measure of the depth-first search. -/
def unvisitedCount (t : FamilyTree) (visited : List String) : Nat :=
  ((allPointers t).filter (fun p => decide (p ∉ visited))).length

/-- Well-formedness of a parsed record stream: unique record pointers and
display names, union/child cross-references that agree in both directions,
at most one parent union per individual, and at most one husband and one
wife pointer per union. -/
def WellFormed (t : FamilyTree) : Prop :=
  (∀ i ∈ t.individuals, ∀ j ∈ t.individuals, i.pointer = j.pointer → i = j) ∧
  (∀ f ∈ t.families, ∀ g ∈ t.families, f.pointer = g.pointer → f = g) ∧
  (∀ i ∈ t.individuals, ∀ j ∈ t.individuals,
    format_name i.name = format_name j.name → i = j) ∧
  (∀ f ∈ t.families, ∀ cp ∈ f.chil, ∀ c ∈ t.individuals,
    c.pointer = cp → f.pointer ∈ c.famc) ∧
  (∀ i ∈ t.individuals, i.famc.length ≤ 1) ∧
  (∀ i ∈ t.individuals, ∀ fp ∈ i.fams, ∀ f ∈ t.families,
    f.pointer = fp → i.pointer ∈ f.husb ∨ i.pointer ∈ f.wife) ∧
  (∀ f ∈ t.families, f.husb.length ≤ 1) ∧
  (∀ f ∈ t.families, f.wife.length ≤ 1)

instance (t : FamilyTree) : Decidable (WellFormed t) := by
  unfold WellFormed
  infer_instance

/-! ## Concrete record streams used as test fixtures -/

/-- Build an individual with only a pointer, a plain name and union links. -/
def mkInd (p : String) (n : String) (famsL famcL : List String) : Individual :=
  { pointer := p, name := GedName.plain n, gender := "", birth_date := "",
    birth_place := "", deceased := false, death_date := "", death_place := "",
    occupation := "", fams := famsL, famc := famcL, note_refs := [] }

/-- Build a family with only member pointers. -/
def mkFam (p : String) (h w c : List String) : Family :=
  { pointer := p, husb := h, wife := w, chil := c, events := [] }

/-- Root individual A of the three-generation scenario. -/
def indA : Individual := mkInd "@A@" "A" ["@U1@"] []

/-- B, child of A via union U1 and parent in union U2. -/
def indB : Individual := mkInd "@B@" "B" ["@U2@"] ["@U1@"]

/-- C, child of B via union U2. -/
def indC : Individual := mkInd "@C@" "C" [] ["@U2@"]

/-- Union U1: spouse A, child B. -/
def famU1 : Family := mkFam "@U1@" ["@A@"] [] ["@B@"]

/-- Union U2: spouse B, child C. -/
def famU2 : Family := mkFam "@U2@" ["@B@"] [] ["@C@"]

/-- The three-generation scenario A, B (child of A via U1), C (child of B via U2). -/
def sampleTree : FamilyTree :=
  { individuals := [indA, indB, indC], families := [famU1, famU2], notes := [] }

/-- Individual A of the cyclic stream: parent of B, child of B. -/
def cycA : Individual := mkInd "@A@" "A" ["@F1@"] ["@F2@"]

/-- Individual B of the cyclic stream: child of A, parent of A. -/
def cycB : Individual := mkInd "@B@" "B" ["@F2@"] ["@F1@"]

/-- A malformed stream with a relationship cycle: A is a parent of B and B
is a parent of A. -/
def cycTree : FamilyTree :=
  { individuals := [cycA, cycB],
    families := [mkFam "@F1@" ["@A@"] [] ["@B@"], mkFam "@F2@" ["@B@"] [] ["@A@"]],
    notes := [] }

/-- An individual with no recorded occupation (and no notes, unions or
death data). -/
def indJane : Individual :=
  { pointer := "@I1@", name := GedName.plain "Jane Doe", gender := "F",
    birth_date := "", birth_place := "", deceased := false, death_date := "",
    death_place := "", occupation := "", fams := [], famc := [], note_refs := [] }

/-- A stream containing only `indJane`. -/
def janeTree : FamilyTree := { individuals := [indJane], families := [], notes := [] }

/-- The aggregation output for `indJane`. -/
def janeDumpList : List (String × Option String) :=
  [("name", some "Jane Doe"), ("gender", some "F"), ("birth date", some ""),
   ("birth place", some ""), ("occupation", some "")]

/-- First individual named John Smith, parent of First Kid. -/
def dup1 : Individual := mkInd "@D1@" "John Smith" ["@FA@"] []

/-- Second individual with the same display name, parent of Second Kid. -/
def dup2 : Individual := mkInd "@D2@" "John Smith" ["@FB@"] []

/-- Child of the first John Smith. -/
def kid1 : Individual := mkInd "@K1@" "First Kid" [] ["@FA@"]

/-- Child of the second John Smith. -/
def kid2 : Individual := mkInd "@K2@" "Second Kid" [] ["@FB@"]

/-- A stream with two distinct individuals sharing the display name
John Smith, each with their own union and child. -/
def dupTree : FamilyTree :=
  { individuals := [dup1, dup2, kid1, kid2],
    families := [mkFam "@FA@" ["@D1@"] [] ["@K1@"], mkFam "@FB@" ["@D2@"] [] ["@K2@"]],
    notes := [] }

/-- Father in the first union of `twoTree`. -/
def papa1 : Individual := mkInd "@P1@" "Papa One" ["@G1@"] []

/-- Father in the second union of `twoTree`. -/
def papa2 : Individual := mkInd "@P2@" "Papa Two" ["@G2@"] []

/-- An individual recorded as a child in two unions. -/
def kidM : Individual := mkInd "@KM@" "Kid" [] ["@G1@", "@G2@"]

/-- Sibling via the first union. -/
def sibX : Individual := mkInd "@S1@" "Sib One" [] ["@G1@"]

/-- Sibling via the second union. -/
def sibY : Individual := mkInd "@S2@" "Sib Two" [] ["@G2@"]

/-- First parent union of `kidM`. -/
def famG1 : Family := mkFam "@G1@" ["@P1@"] [] ["@KM@", "@S1@"]

/-- Second parent union of `kidM`. -/
def famG2 : Family := mkFam "@G2@" ["@P2@"] [] ["@KM@", "@S2@"]

/-- A stream in which `kidM` is a child in two unions with different
fathers and different siblings. -/
def twoTree : FamilyTree :=
  { individuals := [papa1, papa2, kidM, sibX, sibY],
    families := [famG1, famG2], notes := [] }

/-- X, spouse of the union `@FX@` whose child is `badC`. -/
def badX : Individual := mkInd "@X@" "X" ["@FX@"] []

/-- Y, spouse of the union `@FY@` whose child is also `badC`. -/
def badY : Individual := mkInd "@Y@" "Y" ["@FY@"] []

/-- A child recorded in two parent unions, the `@FY@` link first. -/
def badC : Individual := mkInd "@CC@" "C" [] ["@FY@", "@FX@"]

/-- A stream where the child `badC` of `badX` lists another parent union
first, so `find_parents` reports Y instead of X. -/
def badTree : FamilyTree :=
  { individuals := [badX, badY, badC],
    families := [mkFam "@FX@" ["@X@"] [] ["@CC@"], mkFam "@FY@" ["@Y@"] [] ["@CC@"]],
    notes := [] }

/-- An individual with one resolvable note reference and one dangling one. -/
def notedInd : Individual :=
  { pointer := "@I9@", name := GedName.plain "Noted", gender := "", birth_date := "",
    birth_place := "", deceased := false, death_date := "", death_place := "",
    occupation := "", fams := [], famc := [], note_refs := ["@N1@", "@N9@"] }

/-- An individual whose only note reference is dangling. -/
def dangleInd : Individual :=
  { pointer := "@I8@", name := GedName.plain "Dangling", gender := "", birth_date := "",
    birth_place := "", deceased := false, death_date := "", death_place := "",
    occupation := "", fams := [], famc := [], note_refs := ["@N9@"] }

/-- A stream whose only top-level note is `@N1@`; the reference `@N9@` dangles. -/
def noteTree : FamilyTree :=
  { individuals := [notedInd, dangleInd], families := [],
    notes := [{ pointer := "@N1@", lines := [" line one ", "line two"] }] }

/-! ## Theorems -/

namespace FamilyTree

/-- Claim C1: in the graph with A, B (child of A via U1) and C (child of B
via U2), `find_path "A" "C"` succeeds with the path A, B, C — both endpoints
included, in descent order along parent-to-child union edges — while
`find_path "C" "A"` yields the no-path-found error, because the search only
follows parent-to-child edges. -/
theorem c1_end_to_end_path_scenario :
    sampleTree.find_path "A" "C" = Except.ok ["A", "B", "C"] ∧
    sampleTree.find_path "C" "A" = Except.error PathError.noPathFound :=
  ⟨rfl, rfl⟩

/-- Claim C9: `find_children`, `find_parents` and `find_siblings` re-resolve
their argument through name lookup on its formatted display name, so each
returns the relatives of the first-in-file individual with that display
name, not necessarily those of the individual passed in. -/
theorem c9_relatives_of_first_namesake (t : FamilyTree) (ind j : Individual)
    (hres : t.find_individual_by_name (format_name ind.name) = some j) :
    t.find_children ind = Except.ok (t.children_of_resolved j) ∧
    t.find_parents ind = Except.ok (t.parents_of_resolved j) ∧
    t.find_siblings ind = Except.ok (t.siblings_of_resolved j) := by
  refine ⟨?_, ?_, ?_⟩ <;>
    simp [find_children, find_parents, find_siblings, hres]

/-- Witness for C9 on a stream with two individuals named John Smith: the
operations applied to the second namesake return the relatives of the first. -/
theorem c9_witness :
    dupTree.find_individual_by_name (format_name dup2.name) = some dup1 ∧
    (dupTree.find_children dup2 = Except.ok (dupTree.children_of_resolved dup1) ∧
     dupTree.find_parents dup2 = Except.ok (dupTree.parents_of_resolved dup1) ∧
     dupTree.find_siblings dup2 = Except.ok (dupTree.siblings_of_resolved dup1)) :=
  ⟨rfl, c9_relatives_of_first_namesake dupTree dup2 dup1 rfl⟩

/-- Claim C5: if either endpoint name fails to resolve, `find_path` raises
the not-found error (and the search never produces the no-path error in
that case); the no-path error only arises once both endpoints resolved; and
the two errors are distinguishable. -/
theorem c5_endpoint_resolution_errors (t : FamilyTree) (a d : String) :
    ((t.find_individual_by_name a = none ∨ t.find_individual_by_name d = none) →
      t.find_path a d = Except.error PathError.individualsNotFound) ∧
    (t.find_path a d = Except.error PathError.noPathFound →
      (t.find_individual_by_name a).isSome ∧ (t.find_individual_by_name d).isSome) ∧
    PathError.individualsNotFound ≠ PathError.noPathFound := by
  refine ⟨?_, ?_, by decide⟩
  · intro h
    cases ha : t.find_individual_by_name a with
    | none => simp [find_path, ha]
    | some anc =>
      cases hd : t.find_individual_by_name d with
      | none => simp [find_path, ha, hd]
      | some desc =>
        rcases h with h | h
        · rw [ha] at h; exact absurd h (by simp)
        · rw [hd] at h; exact absurd h (by simp)
  · intro h
    cases ha : t.find_individual_by_name a <;>
      cases hd : t.find_individual_by_name d <;>
        simp [find_path, ha, hd] at h ⊢

/-- Witness for C5: an unresolvable ancestor name yields the not-found
error before any search. -/
theorem c5_witness :
    (sampleTree.find_individual_by_name "Z" = none ∨
      sampleTree.find_individual_by_name "A" = none) ∧
    sampleTree.find_path "Z" "A" = Except.error PathError.individualsNotFound :=
  ⟨Or.inl rfl, (c5_endpoint_resolution_errors sampleTree "Z" "A").1 (Or.inl rfl)⟩

/-- Claim C6: after name resolution, `find_parents` reads only the FIRST
`FAMC` union — its father and mother are the first husband-role and
wife-role member names of that union, whatever further unions exist — and
returns the no-parents result when there is no `FAMC` union, whereas
`find_siblings` aggregates the child-role member names across ALL `FAMC`
unions. -/
theorem c6_first_union_parents_all_unions_siblings (t : FamilyTree)
    (ind j : Individual)
    (hres : t.find_individual_by_name (format_name ind.name) = some j) :
    (t.get_families j FamLink.famc = [] →
      t.find_parents ind = Except.ok none ∧ t.find_siblings ind = Except.ok none) ∧
    (∀ fam rest, t.get_families j FamLink.famc = fam :: rest →
      t.find_parents ind = Except.ok (some
        { father := (t.get_family_members fam FamRole.husb).head?.map
            (fun h => format_name h.name)
          mother := (t.get_family_members fam FamRole.wife).head?.map
            (fun w => format_name w.name) }) ∧
      t.find_siblings ind = Except.ok (some ((fam :: rest).flatMap (fun f =>
        (t.get_family_members f FamRole.chil).map (fun m => format_name m.name))))) := by
  constructor
  · intro h
    constructor <;>
      simp [find_parents, find_siblings, parents_of_resolved, siblings_of_resolved,
        hres, h]
  · intro fam rest h
    constructor <;>
      simp [find_parents, find_siblings, parents_of_resolved, siblings_of_resolved,
        hres, h]

/-- Witness for C6 on an individual recorded as a child in two unions: the
parents come from the first union only, the siblings from both. -/
theorem c6_witness :
    twoTree.get_families kidM FamLink.famc = [famG1, famG2] ∧
    twoTree.find_parents kidM =
      Except.ok (some { father := some "Papa One", mother := none }) ∧
    twoTree.find_siblings kidM =
      Except.ok (some ["Kid", "Sib One", "Kid", "Sib Two"]) := by
  have h := (c6_first_union_parents_all_unions_siblings twoTree kidM kidM rfl).2
    famG1 [famG2] rfl
  exact ⟨rfl, h.1.trans rfl, h.2.trans rfl⟩

/-- Claim C10: an individual that appears with the child role in one of the
resolved individual's parent unions shows up in its own `find_siblings`
list — the aggregation does not exclude the queried person. -/
theorem c10_siblings_include_self (t : FamilyTree) (ind j : Individual)
    (fam : Family)
    (hres : t.find_individual_by_name (format_name ind.name) = some j)
    (hfam : fam ∈ t.get_families j FamLink.famc)
    (hchil : j.pointer ∈ fam.chil)
    (hptr : t.findIndividualByPointer j.pointer = some j) :
    ∃ l, t.find_siblings ind = Except.ok (some l) ∧ format_name ind.name ∈ l := by
  have hname : format_name j.name = format_name ind.name := by
    have := List.find?_some hres
    simpa [find_individual_by_name] using this
  cases hfams : t.get_families j FamLink.famc with
  | nil => rw [hfams] at hfam; cases hfam
  | cons f rest =>
    rw [hfams] at hfam
    refine ⟨(f :: rest).flatMap (fun fa =>
      (t.get_family_members fa FamRole.chil).map (fun m => format_name m.name)),
      ?_, ?_⟩
    · simp [find_siblings, siblings_of_resolved, hres, hfams]
    · rw [List.mem_flatMap]
      refine ⟨fam, hfam, ?_⟩
      rw [List.mem_map]
      refine ⟨j, ?_, hname⟩
      simp only [get_family_members]
      rw [List.mem_filterMap]
      exact ⟨j.pointer, hchil, hptr⟩

/-- Witness for C10: B appears in its own sibling list. -/
theorem c10_witness :
    ∃ l, sampleTree.find_siblings indB = Except.ok (some l) ∧
      format_name indB.name ∈ l :=
  c10_siblings_include_self sampleTree indB indB famU1 rfl (by decide) (by decide) rfl

end FamilyTree

namespace FamilyTree

/-- Dropping the note references that do not resolve leaves the gathered
note lines unchanged: a dangling reference contributes nothing. -/
lemma flatMap_noteLines_filter_resolvable (t : FamilyTree) (refs : List String) :
    (refs.filter (fun r => (t.root_notes r).isSome)).flatMap t.noteLinesOfRef =
      refs.flatMap t.noteLinesOfRef := by
  induction refs with
  | nil => rfl
  | cons r rest ih =>
    rw [List.filter_cons]
    cases h : t.root_notes r with
    | none => simp [h, noteLinesOfRef, ih]
    | some n => simp [h, noteLinesOfRef, ih]

/-- When no note reference resolves, no lines are gathered. -/
lemma flatMap_noteLines_nil (t : FamilyTree) (refs : List String)
    (h : ∀ r ∈ refs, t.root_notes r = none) :
    refs.flatMap t.noteLinesOfRef = [] := by
  induction refs with
  | nil => rfl
  | cons r rest ih =>
    simp [noteLinesOfRef, h r (List.mem_cons_self r rest),
      ih (fun s hs => h s (List.mem_cons_of_mem r hs))]

/-- Claim C8: `find_notes` never fails on a dangling note reference — such
a reference contributes nothing, so filtering the references down to the
resolvable ones does not change the result; when no reference resolves the
result is the no-notes value; and the result is exactly the resolved,
stripped lines joined with single spaces in encounter order (none when
there are no lines). -/
theorem c8_dangling_note_references (t : FamilyTree) (individual : Individual) :
    t.find_notes { individual with
        note_refs := individual.note_refs.filter (fun r => (t.root_notes r).isSome) } =
      t.find_notes individual ∧
    ((∀ r ∈ individual.note_refs, t.root_notes r = none) →
      t.find_notes individual = none) ∧
    t.find_notes individual =
      (if (t.resolvedNoteLines individual).isEmpty then none
       else some (String.intercalate " " (t.resolvedNoteLines individual))) := by
  refine ⟨?_, ?_, rfl⟩
  · simp [find_notes, resolvedNoteLines, flatMap_noteLines_filter_resolvable]
  · intro h
    simp [find_notes, resolvedNoteLines, flatMap_noteLines_nil t _ h]

/-- Witness for C8: an individual whose only note reference is dangling
gets the no-notes result rather than a failure. -/
theorem c8_witness :
    (∀ r ∈ dangleInd.note_refs, noteTree.root_notes r = none) ∧
    noteTree.find_notes dangleInd = none :=
  ⟨by decide, (c8_dangling_note_references noteTree dangleInd).2.1 (by decide)⟩

/-- Claim C3 (divergence): on a successful search, `find_path` returns the
formatted display-name strings mapped over the underlying record path — not
the resolved individual records themselves. -/
theorem c3_find_path_returns_display_names (t : FamilyTree) (a d : String)
    (anc desc : Individual) (p : List Individual)
    (ha : t.find_individual_by_name a = some anc)
    (hd : t.find_individual_by_name d = some desc)
    (hp : (find_path_recursive t desc (t.individuals.length + 1) anc [] []).1 =
      SearchResult.found p) :
    t.find_path a d = Except.ok (p.map (fun person => format_name person.name)) := by
  simp [find_path, ha, hd, hp]

/-- Witness for C3: in the three-generation scenario the record path is
`[indA, indB, indC]` but the caller receives only the name strings. -/
theorem c3_witness :
    sampleTree.find_path "A" "C" =
      Except.ok ([indA, indB, indC].map (fun person => format_name person.name)) :=
  c3_find_path_returns_display_names sampleTree "A" "C" indA indC
    [indA, indB, indC] rfl rfl rfl

/-- Claim C4 (counterexample): `indJane` has no recorded occupation, yet the
aggregation emits an "occupation" key with an empty value — the key is not
absent as the claim states. -/
theorem c4_counterexample :
    indJane.occupation = "" ∧
    janeTree.dump_individual_info indJane = Except.ok janeDumpList ∧
    ("occupation", some "") ∈ janeDumpList :=
  ⟨rfl, rfl, by decide⟩

end FamilyTree

namespace FamilyTree

/-- Claim C4 (amended): the aggregation omits the derived relational fields
when they are not truthy — children and spouses when the list is empty, and
notes when `find_notes` yields nothing or joins to the empty string — but
the "occupation" key is always emitted, with the stored (possibly empty)
occupation value, even for an individual with no recorded occupation. -/
theorem c4_occupation_always_emitted (t : FamilyTree) (individual : Individual)
    (l : List (String × Option String)) (cs : List String)
    (hdump : t.dump_individual_info individual = Except.ok l)
    (hcs : t.find_children individual = Except.ok cs) :
    ("occupation", some individual.occupation) ∈ l ∧
    ("children" ∈ l.map Prod.fst ↔ cs ≠ []) ∧
    ("notes" ∈ l.map Prod.fst ↔ (t.find_notes individual).getD "" ≠ "") ∧
    ("spouses" ∈ l.map Prod.fst ↔ t.find_spouses individual ≠ []) := by
  unfold dump_individual_info at hdump
  rw [hcs] at hdump
  cases hp : t.find_parents individual with
  | error e => rw [hp] at hdump; exact absurd hdump (by simp)
  | ok parents =>
    rw [hp] at hdump
    cases hs : t.find_siblings individual with
    | error e => rw [hs] at hdump; exact absurd hdump (by simp)
    | ok siblings =>
      rw [hs] at hdump
      rw [Except.ok.injEq] at hdump
      subst hdump
      cases hd : individual.deceased <;>
        cases cs with
        | nil => ?_
        | cons c0 cr => ?_
      all_goals
        cases parents <;>
          rcases hn : t.find_notes individual with _ | s <;>
            rcases siblings with _ | (_ | ⟨s0, sl0⟩) <;>
              cases hsp : t.find_spouses individual
      all_goals
        first
          | (by_cases hs : s = "" <;> simp [hn, hsp, hs])
          | simp [hn, hsp]

/-- Witness for the amended C4 at `indJane`, who has no occupation, no
children, no notes and no spouses: the occupation key is present anyway,
the relational keys are absent. -/
theorem c4_witness :
    ("occupation", some indJane.occupation) ∈ janeDumpList ∧
    ("children" ∈ janeDumpList.map Prod.fst ↔ ([] : List String) ≠ []) ∧
    ("notes" ∈ janeDumpList.map Prod.fst ↔
      (janeTree.find_notes indJane).getD "" ≠ "") ∧
    ("spouses" ∈ janeDumpList.map Prod.fst ↔ janeTree.find_spouses indJane ≠ []) :=
  c4_occupation_always_emitted janeTree indJane janeDumpList [] rfl rfl

end FamilyTree

/-- Filtering with a stronger predicate keeps at most as many elements. -/
lemma length_filter_mono {α : Type} (l : List α) (p q : α → Bool)
    (h : ∀ a, q a = true → p a = true) :
    (l.filter q).length ≤ (l.filter p).length := by
  induction l with
  | nil => simp
  | cons a l ih =>
    rw [List.filter_cons, List.filter_cons]
    by_cases hq : q a = true
    · rw [if_pos hq, if_pos (h a hq)]
      simpa using ih
    · rw [if_neg hq]
      by_cases hp : p a = true
      · rw [if_pos hp]
        exact ih.trans (by simp)
      · rw [if_neg hp]
        exact ih

/-- Filtering with a strictly stronger predicate (witnessed by a member the
weaker predicate accepts and the stronger rejects) keeps strictly fewer
elements. -/
lemma length_filter_strict {α : Type} (l : List α) (p q : α → Bool)
    (h : ∀ a, q a = true → p a = true) (x : α) (hx : x ∈ l)
    (hpx : p x = true) (hqx : q x = false) :
    (l.filter q).length < (l.filter p).length := by
  induction l with
  | nil => cases hx
  | cons a l ih =>
    rw [List.filter_cons, List.filter_cons]
    rcases List.mem_cons.mp hx with rfl | hmem
    · rw [if_neg (by simp [hqx]), if_pos hpx]
      exact Nat.lt_succ_of_le (length_filter_mono l p q h)
    · by_cases hq : q a = true
      · rw [if_pos hq, if_pos (h a hq)]
        simpa using ih hmem
      · rw [if_neg hq]
        by_cases hp : p a = true
        · rw [if_pos hp]
          simp only [List.length_cons]
          exact Nat.lt_succ_of_lt (ih hmem)
        · rw [if_neg hp]
          exact ih hmem

/-- Growing the visited set cannot increase the number of unvisited pointers. -/
lemma unvisitedCount_mono (t : FamilyTree) (v v2 : List String)
    (h : ∀ s, s ∈ v → s ∈ v2) : unvisitedCount t v2 ≤ unvisitedCount t v := by
  apply length_filter_mono
  intro a ha
  rw [decide_eq_true_iff] at ha ⊢
  exact fun hm => ha (h a hm)

/-- Marking an unvisited individual pointer visited strictly decreases the
number of unvisited pointers. -/
lemma unvisitedCount_strict (t : FamilyTree) (v : List String) (x : String)
    (hx : x ∈ allPointers t) (hnv : x ∉ v) :
    unvisitedCount t (x :: v) < unvisitedCount t v := by
  apply length_filter_strict _ _ _ _ x hx
  · rw [decide_eq_true_iff]
    exact hnv
  · simp
  · intro a ha
    rw [decide_eq_true_iff] at ha ⊢
    exact fun hm => ha (List.mem_cons_of_mem x hm)

namespace FamilyTree

/-- The child loop only ever adds pointers to the visited set. -/
lemma searchChildren_visited_mono
    (step : Individual → List Individual → List String → SearchResult × List String)
    (hstep : ∀ c p v, ∀ s ∈ v, s ∈ (step c p v).2) :
    ∀ children path visited, ∀ s ∈ visited,
      s ∈ (searchChildren step children path visited).2 := by
  intro children
  induction children with
  | nil =>
    intro path visited s hs
    simpa [searchChildren] using hs
  | cons c rest ih =>
    intro path visited s hs
    have hr := hstep c path visited s hs
    cases hstep2 : step c path visited with
    | mk r v1 =>
      rw [hstep2] at hr
      cases r with
      | found p2 => simpa [searchChildren, hstep2] using hr
      | outOfFuel => simpa [searchChildren, hstep2] using hr
      | notFound =>
        simp only [searchChildren, hstep2]
        exact ih path v1 s hr

/-- The recursive search only ever adds pointers to the visited set. -/
lemma find_path_recursive_visited_mono (t : FamilyTree) (target : Individual) :
    ∀ fuel current path visited, ∀ s ∈ visited,
      s ∈ (find_path_recursive t target fuel current path visited).2 := by
  intro fuel
  induction fuel with
  | zero =>
    intro current path visited s hs
    simpa [find_path_recursive] using hs
  | succ fuel ih =>
    intro current path visited s hs
    simp only [find_path_recursive]
    by_cases hv : current.pointer ∈ visited
    · rw [if_pos hv]
      exact hs
    · rw [if_neg hv]
      by_cases ht : current.pointer = target.pointer
      · rw [if_pos ht]
        exact List.mem_cons_of_mem _ hs
      · rw [if_neg ht]
        exact searchChildren_visited_mono _
          (fun c p v s2 hs2 => ih c p v s2 hs2) _ _ _ s
          (List.mem_cons_of_mem _ hs)

/-- Every child produced by the family expansion is an individual record of
the stream, so its pointer is among the stream's pointers. -/
lemma children_pointer_mem (t : FamilyTree) (current : Individual) :
    ∀ c ∈ (t.get_families current FamLink.fams).flatMap
        (fun family => t.get_family_members family FamRole.chil),
      c.pointer ∈ allPointers t := by
  intro c hc
  rw [List.mem_flatMap] at hc
  obtain ⟨fam, hfam, hcm⟩ := hc
  simp only [get_family_members] at hcm
  rw [List.mem_filterMap] at hcm
  obtain ⟨ptr, hptr, hfind⟩ := hcm
  simp only [findIndividualByPointer] at hfind
  have hmem : c ∈ t.individuals := List.mem_of_find?_eq_some hfind
  simp only [allPointers]
  exact List.mem_map_of_mem Individual.pointer hmem

/-- If one step of the search cannot exhaust the fuel under the unvisited
bound, neither can the child loop. -/
lemma searchChildren_no_exhaust (t : FamilyTree) (fuel : Nat)
    (step : Individual → List Individual → List String → SearchResult × List String)
    (hmono : ∀ c p v, ∀ s ∈ v, s ∈ (step c p v).2)
    (hne : ∀ c p v, c.pointer ∈ allPointers t → unvisitedCount t v + 1 ≤ fuel →
      (step c p v).1 ≠ SearchResult.outOfFuel) :
    ∀ children path visited,
      (∀ c ∈ children, c.pointer ∈ allPointers t) →
      unvisitedCount t visited + 1 ≤ fuel →
      (searchChildren step children path visited).1 ≠ SearchResult.outOfFuel := by
  intro children
  induction children with
  | nil =>
    intro path visited _ _
    simp [searchChildren]
  | cons c rest ih =>
    intro path visited hmem hbound
    cases hstep2 : step c path visited with
    | mk r v1 =>
      cases r with
      | found p2 => simp [searchChildren, hstep2]
      | outOfFuel =>
        have hr := hne c path visited (hmem c (List.mem_cons_self c rest)) hbound
        rw [hstep2] at hr
        exact absurd rfl hr
      | notFound =>
        simp only [searchChildren, hstep2]
        apply ih path v1 (fun x hx => hmem x (List.mem_cons_of_mem c hx))
        have hsub : ∀ s ∈ visited, s ∈ v1 := by
          intro s hs
          have hm := hmono c path visited s hs
          rw [hstep2] at hm
          exact hm
        have := unvisitedCount_mono t visited v1 (fun s hs => hsub s hs)
        omega

/-- With fuel exceeding the number of unvisited individual pointers, the
search never exhausts its fuel: the cycle guard shrinks the unvisited set on
every level of recursion. -/
lemma find_path_recursive_no_exhaust (t : FamilyTree) (target : Individual) :
    ∀ fuel current path visited, current.pointer ∈ allPointers t →
      unvisitedCount t visited + 1 ≤ fuel →
      (find_path_recursive t target fuel current path visited).1 ≠
        SearchResult.outOfFuel := by
  intro fuel
  induction fuel with
  | zero =>
    intro current path visited _ hbound
    exact absurd hbound (by omega)
  | succ fuel ih =>
    intro current path visited hcur hbound
    simp only [find_path_recursive]
    by_cases hv : current.pointer ∈ visited
    · rw [if_pos hv]
      simp
    · rw [if_neg hv]
      by_cases ht : current.pointer = target.pointer
      · rw [if_pos ht]
        simp
      · rw [if_neg ht]
        apply searchChildren_no_exhaust t fuel _
          (fun c p v s hs => find_path_recursive_visited_mono t target fuel c p v s hs)
          (fun c p v hc hb => ih c p v hc hb)
          _ _ _ (children_pointer_mem t current) ?_
        have := unvisitedCount_strict t visited current.pointer hcur hv
        omega

/-- Claim C2: for every finite parsed record stream — including one whose
unions form a relationship cycle — the recursive search started at any
individual of the stream, with the fuel `find_path` supplies, terminates
with a finite found path or the no-path result; the fuel-exhaustion outcome
is unreachable because the visited set, threaded by reference through all
branches, makes every level of recursion fail immediately on an
already-visited identifier and otherwise strictly shrink the unvisited set. -/
theorem c2_search_always_terminates (t : FamilyTree)
    (target current : Individual)
    (path : List Individual) (visited : List String)
    (hcur : current.pointer ∈ allPointers t) :
    (find_path_recursive t target (t.individuals.length + 1)
        current path visited).1 = SearchResult.notFound ∨
    ∃ p, (find_path_recursive t target (t.individuals.length + 1)
        current path visited).1 = SearchResult.found p := by
  have h1 : unvisitedCount t visited ≤ t.individuals.length := by
    have h2 := List.length_filter_le (fun p => decide (p ∉ visited)) (allPointers t)
    simpa [unvisitedCount, allPointers] using h2
  have hne := find_path_recursive_no_exhaust t target (t.individuals.length + 1)
    current path visited hcur (by omega)
  cases hres : (find_path_recursive t target (t.individuals.length + 1)
      current path visited).1 with
  | found p => exact Or.inr ⟨p, rfl⟩
  | notFound => exact Or.inl rfl
  | outOfFuel => exact absurd hres hne

/-- Witness for C2 on the cyclic stream where A is a parent of B and B a
parent of A: the search from A still terminates. -/
theorem c2_witness :
    cycA.pointer ∈ allPointers cycTree ∧
    ((find_path_recursive cycTree cycB (cycTree.individuals.length + 1)
        cycA [] []).1 = SearchResult.notFound ∨
     ∃ p, (find_path_recursive cycTree cycB (cycTree.individuals.length + 1)
        cycA [] []).1 = SearchResult.found p) :=
  ⟨by decide, c2_search_always_terminates cycTree cycB cycA [] [] (by decide)⟩

end FamilyTree

/-- `find?` returns the designated element when it is a member satisfying
the predicate and every satisfying member equals it. -/
lemma find?_eq_some_unique {α : Type} (p : α → Bool) (l : List α) (a : α)
    (hmem : a ∈ l) (hpa : p a = true)
    (huniq : ∀ b ∈ l, p b = true → b = a) :
    l.find? p = some a := by
  induction l with
  | nil => cases hmem
  | cons x l ih =>
    by_cases hx : p x = true
    · rw [List.find?_cons_of_pos _ hx]
      exact congrArg some (huniq x (List.mem_cons_self x l) hx)
    · rw [List.find?_cons_of_neg _ (by simpa using hx)]
      rcases List.mem_cons.mp hmem with rfl | hm
      · exact absurd hpa hx
      · exact ih hm (fun b hb hpb => huniq b (List.mem_cons_of_mem x hb) hpb)

/-- A list of length at most one containing an element is that singleton. -/
lemma eq_singleton_of_mem_of_length_le_one {α : Type} {l : List α} {a : α}
    (h : a ∈ l) (hl : l.length ≤ 1) : l = [a] := by
  cases l with
  | nil => cases h
  | cons x l2 =>
    cases l2 with
    | nil =>
      have := List.mem_singleton.mp h
      rw [this]
    | cons y l3 => simp at hl

namespace FamilyTree

/-- In a well-formed stream, name lookup on a member's own formatted name
returns that member. -/
lemma wf_find_by_name_self (t : FamilyTree) (hwf : WellFormed t)
    (x : Individual) (hx : x ∈ t.individuals) :
    t.find_individual_by_name (format_name x.name) = some x := by
  obtain ⟨h1, h2, h3, h4, h5, h6, h7, h8⟩ := hwf
  apply find?_eq_some_unique _ _ _ hx (by simp)
  intro b hb hpb
  exact h3 b hb x hx (by simpa using hpb)

/-- In a well-formed stream, pointer lookup on a member's own pointer
returns that member. -/
lemma wf_findIndividualByPointer_self (t : FamilyTree) (hwf : WellFormed t)
    (x : Individual) (hx : x ∈ t.individuals) :
    t.findIndividualByPointer x.pointer = some x := by
  obtain ⟨h1, h2, h3, h4, h5, h6, h7, h8⟩ := hwf
  apply find?_eq_some_unique _ _ _ hx (by simp)
  intro b hb hpb
  exact h1 b hb x hx (by simpa using hpb)

/-- In a well-formed stream, pointer lookup on a family's own pointer
returns that family. -/
lemma wf_findFamilyByPointer_self (t : FamilyTree) (hwf : WellFormed t)
    (f : Family) (hf : f ∈ t.families) :
    t.findFamilyByPointer f.pointer = some f := by
  obtain ⟨h1, h2, h3, h4, h5, h6, h7, h8⟩ := hwf
  apply find?_eq_some_unique _ _ _ hf (by simp)
  intro b hb hpb
  exact h2 b hb f hf (by simpa using hpb)

/-- Claim C7 (amended): in a well-formed stream — unique pointers and
display names, union/child cross-references agreeing in both directions, at
most one parent union per individual and at most one husband and one wife
per union — every entry of `find_children x` denotes an individual whose
`find_parents` names `x` in the father or mother slot. -/
theorem c7_amended_parent_child_consistency (t : FamilyTree) (x : Individual)
    (l : List String) (e : String) (c : Individual)
    (hwf : WellFormed t) (hx : x ∈ t.individuals)
    (hl : t.find_children x = Except.ok l) (he : e ∈ l)
    (hc : t.find_individual_by_name e = some c) :
    ∃ pr, t.find_parents c = Except.ok (some pr) ∧
      (pr.father = some (format_name x.name) ∨
       pr.mother = some (format_name x.name)) := by
  have hwfc := hwf
  obtain ⟨h1, h2, h3, h4, h5, h6, h7, h8⟩ := hwfc
  have hresx := wf_find_by_name_self t hwf x hx
  simp only [find_children, hresx, Except.ok.injEq] at hl
  subst hl
  simp only [children_of_resolved] at he
  rw [List.mem_flatMap] at he
  obtain ⟨fam, hfam, he2⟩ := he
  rw [List.mem_map] at he2
  obtain ⟨c0, hc0, hename⟩ := he2
  simp only [get_families] at hfam
  rw [List.mem_filterMap] at hfam
  obtain ⟨fp, hfp, hffind⟩ := hfam
  simp only [findFamilyByPointer] at hffind
  have hfmem : fam ∈ t.families := List.mem_of_find?_eq_some hffind
  have hfpe : fam.pointer = fp := by simpa using List.find?_some hffind
  simp only [get_family_members] at hc0
  rw [List.mem_filterMap] at hc0
  obtain ⟨cp, hcp, hcfind⟩ := hc0
  simp only [findIndividualByPointer] at hcfind
  have hc0mem : c0 ∈ t.individuals := List.mem_of_find?_eq_some hcfind
  have hc0p : c0.pointer = cp := by simpa using List.find?_some hcfind
  have hcmem : c ∈ t.individuals := by
    simp only [find_individual_by_name] at hc
    exact List.mem_of_find?_eq_some hc
  have hcname : format_name c.name = e := by
    simp only [find_individual_by_name] at hc
    simpa using List.find?_some hc
  have hceq : c = c0 := h3 c hcmem c0 hc0mem (by rw [hcname, hename])
  obtain rfl := hceq
  have hfamc : fam.pointer ∈ c.famc := h4 fam hfmem cp hcp c hcmem hc0p
  have hfamc_eq : c.famc = [fam.pointer] :=
    eq_singleton_of_mem_of_length_le_one hfamc (h5 c hcmem)
  have hresc := wf_find_by_name_self t hwf c hcmem
  have hgf : t.get_families c FamLink.famc = [fam] := by
    simp only [get_families, hfamc_eq]
    simp [wf_findFamilyByPointer_self t hwf fam hfmem]
  rcases h6 x hx fp hfp fam hfmem hfpe with hh | hw
  · have hmembers : t.get_family_members fam FamRole.husb = [x] := by
      simp only [get_family_members,
        eq_singleton_of_mem_of_length_le_one hh (h7 fam hfmem)]
      simp [wf_findIndividualByPointer_self t hwf x hx]
    refine ⟨{ father := (t.get_family_members fam FamRole.husb).head?.map
                (fun h => format_name h.name)
              mother := (t.get_family_members fam FamRole.wife).head?.map
                (fun w => format_name w.name) }, ?_, ?_⟩
    · simp [find_parents, hresc, parents_of_resolved, hgf]
    · left
      rw [hmembers]
      simp
  · have hmembers : t.get_family_members fam FamRole.wife = [x] := by
      simp only [get_family_members,
        eq_singleton_of_mem_of_length_le_one hw (h8 fam hfmem)]
      simp [wf_findIndividualByPointer_self t hwf x hx]
    refine ⟨{ father := (t.get_family_members fam FamRole.husb).head?.map
                (fun h => format_name h.name)
              mother := (t.get_family_members fam FamRole.wife).head?.map
                (fun w => format_name w.name) }, ?_, ?_⟩
    · simp [find_parents, hresc, parents_of_resolved, hgf]
    · right
      rw [hmembers]
      simp

/-- Witness for the amended C7 on the well-formed three-generation stream:
the entry B of `find_children` on A resolves to an individual whose
`find_parents` lists A as father. -/
theorem c7_witness :
    ∃ pr, sampleTree.find_parents indB = Except.ok (some pr) ∧
      (pr.father = some (format_name indA.name) ∨
       pr.mother = some (format_name indA.name)) :=
  c7_amended_parent_child_consistency sampleTree indA ["B"] "B" indB
    (by decide) (by decide) rfl (by decide) rfl

/-- Claim C7 (counterexample): in `badTree` the individual `badX` is in the
graph, `find_children badX` lists the entry C, that entry denotes `badC`,
and `find_parents badC` reports father Y and no mother — `badX`'s display
name X is in neither slot, because the child's first-listed parent union is
the other one. -/
theorem c7_counterexample :
    badX ∈ badTree.individuals ∧
    badTree.find_children badX = Except.ok ["C"] ∧
    badTree.find_individual_by_name "C" = some badC ∧
    badTree.find_parents badC =
      Except.ok (some { father := some "Y", mother := none }) ∧
    some "Y" ≠ some (format_name badX.name) ∧
    (none : Option String) ≠ some (format_name badX.name) :=
  ⟨by decide, rfl, rfl, rfl, by decide, by decide⟩

end FamilyTree
